import Mathlib

/-!
Verification model of the mijn-focus gateway.

Part 1 models the request handlers of `web/focus/focusserver.py`
(`FocusServer`): each handler is embedded as a pure function from an
environment describing the outcomes of the external calls it makes
(SAML subject extraction and the remote Focus connection) to the HTTP
response it produces, paired with the trace of calls it performed on the
connection.  A Python exception raised by an external call is modelled
as the `exn` constructor of `PyResult`; a handler that lets an exception
propagate returns `exn` itself.

Part 2 models the symmetric addressing codec (`focus/crypto.py`, whose
source is not part of this tree; it is modelled from the specification's
description of `encode`/`decode`).
-/

/-- Outcome of a Python call: a normal return value or a raised
exception (identified by its string rendering). -/
inductive PyResult (α : Type) where
  | ok (a : α)
  | exn (e : String)
deriving DecidableEq

/-- `true` exactly when the call raised. -/
def PyResult.isExn {α : Type} : PyResult α → Bool
  | .ok _ => false
  | .exn _ => true

/-- Response body: plain text, a JSON payload of remote data `D`, the
combined three-part JSON object built by `combined`, or raw document
bytes. -/
inductive Body (D : Type) where
  | text (s : String)
  | json (d : D)
  | combinedJson (jaaropgaven uitkeringsspecificaties tozodocumenten : D)
  | bytes (contents : List Nat)
deriving DecidableEq

/-- An HTTP response as produced by the handlers: status code, body and
the two headers the code sets explicitly. -/
structure Response (D : Type) where
  status : Nat
  body : Body D
  contentType : Option String
  contentDisposition : Option String
deriving DecidableEq

/-- The metadata-bearing document record returned by the remote
`document` call (`contents`, `fileName`, `mime_type`). -/
structure Document where
  contents : List Nat
  fileName : String
  mime_type : String
deriving DecidableEq

/-- One call performed on the Focus connection object, with the
arguments that were passed to it. -/
inductive ConnCall where
  | is_alive
  | reset
  | aanvragen (bsn url_root : String)
  | jaaropgaven (bsn url_root : String)
  | uitkeringsspecificaties (bsn url_root : String)
  | eAanvragenTozo (bsn url_root : String)
  | document (bsn : String) (id : Option String) (isBulk isDms : Bool)
deriving DecidableEq

/-- Number of `reset()` calls in a connection trace. -/
def resets (t : List ConnCall) : Nat :=
  (t.filter (fun c => decide (c = ConnCall.reset))).length

/-- The request environment of one handler invocation: the outcome of
`get_bsn_from_request`, the outcome each remote connection call would
have if performed, the query arguments and the script root. -/
structure Env (D : Type) where
  bsn : PyResult String
  is_alive_result : PyResult Bool
  aanvragen_result : PyResult D
  jaaropgaven_result : PyResult D
  uitkeringsspecificaties_result : PyResult D
  eAanvragenTozo_result : PyResult D
  document_result : PyResult Document
  args : List (String × String)
  script_root : String

/-- Python's `str.lower()` restricted to its ASCII action (the only
part the `== "true"` comparison can depend on). -/
def pyLower (s : String) : String := String.mk (s.data.map Char.toLower)

/-- `request.args.get(key, dflt)`: first value bound to `key`, else the
default. -/
def argGet (args : List (String × String)) (key dflt : String) : String :=
  match args.find? (fun p => p.1 == key) with
  | some p => p.2
  | none => dflt

/-- `request.args.get(key, None)`: first value bound to `key`, if any. -/
def argGetOpt (args : List (String × String)) (key : String) : Option String :=
  (args.find? (fun p => p.1 == key)).map (fun p => p.2)

namespace FocusServer

/-- `FocusServer._no_connection_response`: the uniform plain-text 500
connectivity-failure response (the accompanying `reset()` call is
recorded in the caller's trace). -/
def no_connection_response {D : Type} : Response D :=
  ⟨500, .text "Focus connectivity failed", some "text/plain", none⟩

/-- `FocusServer._parameter_error_response(message)`: plain-text 422
carrying the detail message; performs no connection call. -/
def parameter_error_response {D : Type} (message : String) : Response D :=
  ⟨422, .text ("Parameter error: " ++ message), some "text/plain", none⟩

/-- `FocusServer.health`: static, always the plain-text 200 `OK`. -/
def health {D : Type} : Response D :=
  ⟨200, .text "OK", some "text/plain", none⟩

/-- `FocusServer.status_data`: probes `is_alive()`; a `True` answer
yields the plain-text 200, anything else (a `False` answer or a raised
exception, swallowed by `except Exception: pass`) falls through to
`_no_connection_response()`, which resets the connection. -/
def status_data {D : Type} (env : Env D) : Response D × List ConnCall :=
  match env.is_alive_result with
  | .ok true =>
      (⟨200, .text "Connectivity to Focus OK", some "text/plain", none⟩, [.is_alive])
  | .ok false => (no_connection_response, [.is_alive, .reset])
  | .exn _ => (no_connection_response, [.is_alive, .reset])

/-- `FocusServer.aanvragen`: BSN extraction is guarded (422 on
failure), but the remote `aanvragen` call is *not* inside a
`try`/`except` (that block is commented out in the source), so an
exception raised by the remote call propagates out of the handler. -/
def aanvragen {D : Type} (env : Env D) : PyResult (Response D) × List ConnCall :=
  match env.bsn with
  | .exn e => (.ok (parameter_error_response e), [])
  | .ok b =>
    match env.aanvragen_result with
    | .exn e => (.exn e, [.aanvragen b env.script_root])
    | .ok d => (.ok ⟨200, .json d, some "application/json", none⟩,
                [.aanvragen b env.script_root])

/-- `FocusServer.combined`: BSN extraction guarded (422 on failure);
the three remote calls run sequentially inside one `try`, so the first
one to raise aborts the rest and yields `_no_connection_response()`. -/
def combined {D : Type} (env : Env D) : Response D × List ConnCall :=
  match env.bsn with
  | .exn e => (parameter_error_response e, [])
  | .ok b =>
    match env.jaaropgaven_result with
    | .exn _ => (no_connection_response, [.jaaropgaven b env.script_root, .reset])
    | .ok j =>
      match env.uitkeringsspecificaties_result with
      | .exn _ => (no_connection_response,
                   [.jaaropgaven b env.script_root,
                    .uitkeringsspecificaties b env.script_root, .reset])
      | .ok u =>
        match env.eAanvragenTozo_result with
        | .exn _ => (no_connection_response,
                     [.jaaropgaven b env.script_root,
                      .uitkeringsspecificaties b env.script_root,
                      .eAanvragenTozo b env.script_root, .reset])
        | .ok t => (⟨200, .combinedJson j u t, some "application/json", none⟩,
                    [.jaaropgaven b env.script_root,
                     .uitkeringsspecificaties b env.script_root,
                     .eAanvragenTozo b env.script_root])

/-- `FocusServer.document`: reads `id` (default `None`), `isBulk` and
`isDms` (string compared to `"true"` after lower-casing, default
`"false"`), guards BSN extraction (422) and the remote call (500 +
reset); on success answers 200 with the raw bytes, the
`Content-Disposition` attachment header and the document's MIME type. -/
def document {D : Type} (env : Env D) : Response D × List ConnCall :=
  let id := argGetOpt env.args "id"
  let isBulk := pyLower (argGet env.args "isBulk" "false") == "true"
  let isDms := pyLower (argGet env.args "isDms" "false") == "true"
  match env.bsn with
  | .exn e => (parameter_error_response e, [])
  | .ok b =>
    match env.document_result with
    | .exn _ => (no_connection_response, [.document b id isBulk isDms, .reset])
    | .ok doc =>
        (⟨200, .bytes doc.contents, some doc.mime_type,
          some ("attachment; filename=\"" ++ doc.fileName ++ "\"")⟩,
         [.document b id isBulk isDms])

end FocusServer

namespace crypto


/-- Least-significant-bit-first binary representation of `n` on `w` bits. -/
def natBits : Nat → Nat → List Bool
  | 0, _ => []
  | w + 1, n => (n % 2 == 1) :: natBits w (n / 2)

/-- Value of a least-significant-bit-first bit list. -/
def bitsVal : List Bool → Nat
  | [] => 0
  | b :: bs => (cond b 1 0) + 2 * bitsVal bs

/-- Exclusive-or of all bits of a list. -/
def parity (l : List Bool) : Bool :=
  l.foldr xor false

/-- Flip the bit at position `i` (identity past the end). -/
def flipBit (l : List Bool) (i : Nat) : List Bool :=
  l.set i (! l.getD i false)

theorem length_natBits (w n : Nat) : (natBits w n).length = w := by
  induction w generalizing n with
  | zero => rfl
  | succ w ih => simp [natBits, ih]

theorem bitsVal_natBits (w n : Nat) : bitsVal (natBits w n) = n % 2 ^ w := by
  induction w generalizing n with
  | zero => simp [natBits, bitsVal, Nat.mod_one]
  | succ w ih =>
    have h2 : (2 : Nat) ^ (w + 1) = 2 * 2 ^ w := by ring
    rw [natBits, bitsVal, ih, h2, Nat.mod_mul]
    rcases Nat.mod_two_eq_zero_or_one n with h | h <;> simp [h]

theorem natBits_bitsVal (bs : List Bool) : natBits bs.length (bitsVal bs) = bs := by
  induction bs with
  | nil => rfl
  | cons b bs ih =>
    rw [List.length_cons, natBits, bitsVal]
    have hmod : ((cond b 1 0) + 2 * bitsVal bs) % 2 = cond b 1 0 := by
      cases b <;> simp [Nat.add_mul_mod_self_left]
    have hdiv : ((cond b 1 0) + 2 * bitsVal bs) / 2 = bitsVal bs := by
      cases b <;> omega
    rw [hmod, hdiv, ih]
    cases b <;> rfl

theorem bitsVal_lt (bs : List Bool) : bitsVal bs < 2 ^ bs.length := by
  induction bs with
  | nil => simp [bitsVal]
  | cons b bs ih =>
    have h2 : (2 : Nat) ^ (bs.length + 1) = 2 * 2 ^ bs.length := by ring
    rw [bitsVal, List.length_cons, h2]
    cases b <;> simp <;> omega

theorem natBits_inj {w a b : Nat} (ha : a < 2 ^ w) (hb : b < 2 ^ w)
    (h : natBits w a = natBits w b) : a = b := by
  have := congrArg bitsVal h
  rwa [bitsVal_natBits, bitsVal_natBits, Nat.mod_eq_of_lt ha, Nat.mod_eq_of_lt hb] at this

theorem foldr_xor (l : List Bool) (c : Bool) : l.foldr xor c = xor (parity l) c := by
  induction l with
  | nil => simp [parity]
  | cons b l ih => simp [parity, List.foldr_cons, ih, Bool.xor_assoc]

theorem parity_append (a b : List Bool) : parity (a ++ b) = xor (parity a) (parity b) := by
  rw [parity, List.foldr_append, foldr_xor]
  rfl

theorem length_flipBit (l : List Bool) (i : Nat) : (flipBit l i).length = l.length := by
  simp [flipBit]

theorem flipBit_cons_zero (b : Bool) (l : List Bool) : flipBit (b :: l) 0 = (!b) :: l := by
  simp [flipBit]

theorem flipBit_cons_succ (b : Bool) (l : List Bool) (i : Nat) :
    flipBit (b :: l) (i + 1) = b :: flipBit l i := by
  simp [flipBit]

theorem parity_flipBit (l : List Bool) (i : Nat) (h : i < l.length) :
    parity (flipBit l i) = ! parity l := by
  induction l generalizing i with
  | nil => simp at h
  | cons b bs ih =>
    cases i with
    | zero =>
      rw [flipBit_cons_zero]
      show xor (!b) (parity bs) = !(xor b (parity bs))
      cases b <;> simp
    | succ i =>
      rw [flipBit_cons_succ]
      show xor b (parity (flipBit bs i)) = !(xor b (parity bs))
      rw [ih i (by simpa using h)]
      cases b <;> simp

/-- Fixed-width (32-bit) encoding of one character's code point. -/
def charBits (c : Char) : List Bool :=
  natBits 32 c.toNat

/-- Decode one 32-bit group back into a character; fails when the value
is not a valid code point. -/
def decChar (bs : List Bool) : Option Char :=
  if (bitsVal bs).isValidChar then some (Char.ofNat (bitsVal bs))
  else none

/-- Fixed-width encoding of a character list. -/
def encChars (cs : List Char) : List Bool :=
  (cs.map charBits).flatten

/-- Decode exactly `n` characters, consuming the whole input. -/
def decChars : Nat → List Bool → Option (List Char)
  | 0, [] => some []
  | 0, _ :: _ => none
  | n + 1, bs =>
    if bs.length < 32 then none
    else
      match decChar (bs.take 32), decChars n (bs.drop 32) with
      | some c, some cs => some (c :: cs)
      | _, _ => none

theorem toNat_valid (c : Char) : c.toNat.isValidChar := c.valid

theorem toNat_lt_32 (c : Char) : c.toNat < 2 ^ 32 := by
  rcases toNat_valid c with h | h
  · show c.toNat < 2 ^ 32
    omega
  · show c.toNat < 2 ^ 32
    omega

theorem ofNatAux_toNat (c : Char) (h : c.toNat.isValidChar) : Char.ofNatAux c.toNat h = c := by
  apply Char.ext
  apply UInt32.ext
  rfl

theorem toNat_ofNatAux (n : Nat) (h : n.isValidChar) : (Char.ofNatAux n h).toNat = n := rfl

theorem length_charBits (c : Char) : (charBits c).length = 32 :=
  length_natBits 32 c.toNat

theorem toNat_ofNat_valid (n : Nat) (h : n.isValidChar) : (Char.ofNat n).toNat = n := by
  rw [Char.ofNat, dif_pos h]
  exact toNat_ofNatAux n h

theorem ofNat_toNat (c : Char) : Char.ofNat c.toNat = c := by
  rw [Char.ofNat, dif_pos (toNat_valid c)]
  exact ofNatAux_toNat c (toNat_valid c)

theorem decChar_charBits (c : Char) : decChar (charBits c) = some c := by
  have hv : bitsVal (charBits c) = c.toNat := by
    rw [charBits, bitsVal_natBits, Nat.mod_eq_of_lt (toNat_lt_32 c)]
  rw [decChar, hv, if_pos (toNat_valid c), ofNat_toNat]

theorem decChar_sound {bs : List Bool} {c : Char} (hlen : bs.length = 32)
    (h : decChar bs = some c) : charBits c = bs := by
  rw [decChar] at h
  split at h
  · rename_i hv
    have hc : c = Char.ofNat (bitsVal bs) := by
      injection h with h
      exact h.symm
    have htn : c.toNat = bitsVal bs := by rw [hc, toNat_ofNat_valid _ hv]
    rw [charBits, htn, ← hlen, natBits_bitsVal]
  · exact absurd h (by simp)

theorem length_encChars (cs : List Char) : (encChars cs).length = 32 * cs.length := by
  induction cs with
  | nil => rfl
  | cons c cs ih =>
    simp [encChars] at ih ⊢
    rw [length_charBits c]
    omega

theorem encChars_cons (c : Char) (cs : List Char) :
    encChars (c :: cs) = charBits c ++ encChars cs := by
  simp [encChars]

theorem decChars_encChars (cs : List Char) : decChars cs.length (encChars cs) = some cs := by
  induction cs with
  | nil => rfl
  | cons c cs ih =>
    rw [List.length_cons, encChars_cons, decChars]
    have hl : (charBits c ++ encChars cs).length = 32 + 32 * cs.length := by
      simp [length_charBits, length_encChars]
    rw [if_neg (by omega)]
    have ht : (charBits c ++ encChars cs).take 32 = charBits c := by
      rw [← length_charBits c]
      exact List.take_left _ _
    have hd : (charBits c ++ encChars cs).drop 32 = encChars cs := by
      rw [← length_charBits c]
      exact List.drop_left _ _
    rw [ht, hd, decChar_charBits, ih]

theorem decChars_sound {n : Nat} {bs : List Bool} {cs : List Char}
    (h : decChars n bs = some cs) :
    cs.length = n ∧ bs.length = 32 * n ∧ encChars cs = bs := by
  induction n generalizing bs cs with
  | zero =>
    cases bs with
    | nil =>
      injection h with h
      subst h
      exact ⟨rfl, rfl, rfl⟩
    | cons b bs => exact absurd h (by simp [decChars])
  | succ n ih =>
    rw [decChars] at h
    split at h
    · exact absurd h (by simp)
    · rename_i hge
      split at h
      · rename_i c cs' hc hcs
        injection h with h
        subst h
        obtain ⟨h1, h2, h3⟩ := ih hcs
        have hbl : bs.length = 32 + bs.length - 32 := by omega
        have htl : (bs.take 32).length = 32 := by
          rw [List.length_take]
          omega
        have hcb : charBits c = bs.take 32 := decChar_sound htl hc
        constructor
        · simp [h1]
        constructor
        · have := List.length_drop 32 bs
          omega
        · rw [encChars_cons, h3, hcb, List.take_append_drop]
      · exact absurd h (by simp)

/-- The reserved field separator of the joined plaintext. -/
def sep : Char := ':'

/-- Split a character list on the separator (always returns at least
one part). -/
def splitOnSep : List Char → List (List Char)
  | [] => [[]]
  | c :: cs =>
    if c = sep then [] :: splitOnSep cs
    else
      match splitOnSep cs with
      | [] => [[c]]
      | f :: rest => (c :: f) :: rest

/-- Join parts with the separator (left inverse of `splitOnSep`). -/
def joinSep : List (List Char) → List Char
  | [] => []
  | [x] => x
  | x :: xs => x ++ sep :: joinSep xs

theorem splitOnSep_ne_nil (cs : List Char) : splitOnSep cs ≠ [] := by
  cases cs with
  | nil => simp [splitOnSep]
  | cons c cs =>
    rw [splitOnSep]
    split
    · simp
    · split <;> simp

theorem splitOnSep_sepFree {a : List Char} (h : sep ∉ a) : splitOnSep a = [a] := by
  induction a with
  | nil => rfl
  | cons c cs ih =>
    have hc : c ≠ sep := by
      intro he
      exact h (he ▸ List.mem_cons_self c cs)
    have hcs : sep ∉ cs := fun hm => h (List.mem_cons_of_mem c hm)
    rw [splitOnSep, if_neg hc, ih hcs]

theorem splitOnSep_append {a : List Char} (rest : List Char) (h : sep ∉ a) :
    splitOnSep (a ++ sep :: rest) = a :: splitOnSep rest := by
  induction a with
  | nil => simp [splitOnSep]
  | cons c cs ih =>
    have hc : c ≠ sep := by
      intro he
      exact h (he ▸ List.mem_cons_self c cs)
    have hcs : sep ∉ cs := fun hm => h (List.mem_cons_of_mem c hm)
    rw [List.cons_append, splitOnSep, if_neg hc, ih hcs]

theorem joinSep_cons (f : List Char) (x : List Char) (xs : List (List Char)) :
    joinSep (f :: x :: xs) = f ++ sep :: joinSep (x :: xs) := rfl

theorem joinSep_splitOnSep (cs : List Char) : joinSep (splitOnSep cs) = cs := by
  induction cs with
  | nil => rfl
  | cons c cs ih =>
    rw [splitOnSep]
    split
    · rename_i hc
      subst hc
      obtain ⟨f, rest, he⟩ : ∃ f rest, splitOnSep cs = f :: rest := by
        cases hs : splitOnSep cs with
        | nil => exact absurd hs (splitOnSep_ne_nil cs)
        | cons f rest => exact ⟨f, rest, rfl⟩
      rw [he] at ih ⊢
      rw [joinSep_cons, List.nil_append, ih]
    · rename_i hc
      obtain ⟨f, rest, he⟩ : ∃ f rest, splitOnSep cs = f :: rest := by
        cases hs : splitOnSep cs with
        | nil => exact absurd hs (splitOnSep_ne_nil cs)
        | cons f rest => exact ⟨f, rest, rfl⟩
      rw [he] at ih ⊢
      cases rest with
      | nil =>
        show c :: f = c :: cs
        rw [show joinSep [f] = f from rfl] at ih
        rw [ih]
      | cons y ys =>
        show (c :: f) ++ sep :: joinSep (y :: ys) = c :: cs
        rw [List.cons_append, ← joinSep_cons f y ys, ih]

theorem splitOnSep_parts_sepFree (cs : List Char) :
    ∀ p ∈ splitOnSep cs, sep ∉ p := by
  induction cs with
  | nil =>
    intro p hp
    simp [splitOnSep] at hp
    simp [hp]
  | cons c cs ih =>
    intro p hp
    rw [splitOnSep] at hp
    split at hp
    · rcases List.mem_cons.mp hp with he | hm
      · simp [he]
      · exact ih p hm
    · rename_i hc
      rcases hs : splitOnSep cs with _ | ⟨f, rest⟩
      · exact absurd hs (splitOnSep_ne_nil cs)
      · rw [hs] at hp ih
        rcases List.mem_cons.mp hp with he | hm
        · subst he
          intro hmem
          rcases List.mem_cons.mp hmem with he2 | hm2
          · exact hc he2.symm
          · exact ih f (List.mem_cons_self f rest) hm2
        · exact ih p (List.mem_cons_of_mem f hm)

/-- Modelled from the spec: the composite resource key
`(budget-code, admin-number, pass-number)` that `focus/crypto.py`
(absent from this tree) encodes into an opaque token. -/
structure CompositeKey where
  budget_code : String
  admin_number : String
  pas_number : String
deriving DecidableEq

/-- Join the three fields with the reserved separator. -/
def joinFields (k : CompositeKey) : List Char :=
  k.budget_code.data ++ sep :: (k.admin_number.data ++ sep :: k.pas_number.data)

/-- Body of an encoded token: a 32-bit length field for the key
material, one for the joined plaintext, the key material (idealised
authentication tag), and the plaintext. -/
def tokenBody (k : CompositeKey) (key : String) : List Bool :=
  natBits 32 key.data.length ++
    (natBits 32 (joinFields k).length ++ (encChars key.data ++ encChars (joinFields k)))

/-- Modelled from the spec: `encode(fields, key)` of the addressing
codec (`focus/crypto.py`, absent from this tree).  The authenticated
symmetric cipher is idealised: the token is the frame of `tokenBody`
protected by a leading parity bit, so that decryption under a
different key and any single-bit or length tampering are rejected, as
the spec requires of authenticated decryption. -/
def encrypt (k : CompositeKey) (key : String) : List Bool :=
  parity (tokenBody k key) :: tokenBody k key

/-- Modelled from the spec: `decode(token, key)`.  `none` models the
`InvalidTokenError` outcome: it is returned when the parity check
fails, the length framing is inconsistent, a 32-bit group is not a
valid character, the embedded key material differs from `key`, or the
plaintext does not split into exactly three fields. -/
def decrypt (t : List Bool) (key : String) : Option CompositeKey :=
  match t with
  | [] => none
  | p :: body =>
    if p = parity body then
      if body.length = 64 + 32 * bitsVal (body.take 32) +
          32 * bitsVal ((body.drop 32).take 32) then
        match decChars (bitsVal (body.take 32))
                ((body.drop 64).take (32 * bitsVal (body.take 32))),
              decChars (bitsVal ((body.drop 32).take 32))
                (body.drop (64 + 32 * bitsVal (body.take 32))) with
        | some kcs, some pcs =>
          if String.mk kcs = key then
            match splitOnSep pcs with
            | [a, b, c] => some ⟨String.mk a, String.mk b, String.mk c⟩
            | _ => none
          else none
        | _, _ => none
      else none
    else none

theorem splitOnSep_joinFields (k : CompositeKey)
    (h1 : sep ∉ k.budget_code.data) (h2 : sep ∉ k.admin_number.data)
    (h3 : sep ∉ k.pas_number.data) :
    splitOnSep (joinFields k) = [k.budget_code.data, k.admin_number.data, k.pas_number.data] := by
  rw [joinFields, splitOnSep_append _ h1, splitOnSep_append _ h2, splitOnSep_sepFree h3]

theorem joinFields_eq (a b c : List Char) :
    joinFields ⟨String.mk a, String.mk b, String.mk c⟩ = a ++ sep :: (b ++ sep :: c) := rfl

theorem decrypt_encrypt_general (k : CompositeKey) (K Kq : String)
    (h1 : sep ∉ k.budget_code.data) (h2 : sep ∉ k.admin_number.data)
    (h3 : sep ∉ k.pas_number.data)
    (hK : K.data.length < 2 ^ 32) (hpt : (joinFields k).length < 2 ^ 32) :
    decrypt (encrypt k K) Kq = if Kq = K then some k else none := by
  have lA : (natBits 32 K.data.length).length = 32 := length_natBits _ _
  have lB : (natBits 32 (joinFields k).length).length = 32 := length_natBits _ _
  have lC : (encChars K.data).length = 32 * K.data.length := length_encChars _
  set A := natBits 32 K.data.length with hAdef
  set B := natBits 32 (joinFields k).length with hBdef
  set C := encChars K.data with hCdef
  set E := encChars (joinFields k) with hEdef
  set body := A ++ (B ++ (C ++ E)) with hbody
  have htake : body.take 32 = A := List.take_left' lA
  have hdrop : body.drop 32 = B ++ (C ++ E) := List.drop_left' lA
  have hkn : bitsVal (body.take 32) = K.data.length := by
    rw [htake, hAdef, bitsVal_natBits, Nat.mod_eq_of_lt hK]
  have hpn : bitsVal ((body.drop 32).take 32) = (joinFields k).length := by
    rw [hdrop, List.take_left' lB, hBdef, bitsVal_natBits, Nat.mod_eq_of_lt hpt]
  have lE : E.length = 32 * (joinFields k).length := by
    rw [hEdef]
    exact length_encChars _
  have hbl : body.length = 64 + 32 * K.data.length + 32 * (joinFields k).length := by
    rw [hbody]
    simp only [List.length_append, lA, lB, lC, lE]
    omega
  have hlen : body.length = 64 + 32 * bitsVal (body.take 32) +
      32 * bitsVal ((body.drop 32).take 32) := by
    rw [hkn, hpn, hbl]
  have hd64 : body.drop 64 = C ++ E := by
    have : body = (A ++ B) ++ (C ++ E) := by rw [hbody, List.append_assoc]
    rw [this]
    exact List.drop_left' (by rw [List.length_append, lA, lB])
  have hkeybits : (body.drop 64).take (32 * bitsVal (body.take 32)) = C := by
    rw [hd64, hkn]
    exact List.take_left' lC
  have hptbits : body.drop (64 + 32 * bitsVal (body.take 32)) = E := by
    rw [← List.drop_drop, hd64, hkn]
    exact List.drop_left' lC
  show decrypt (parity body :: body) Kq = if Kq = K then some k else none
  rw [decrypt]
  rw [if_pos rfl]
  simp only [hkeybits, hptbits]
  rw [if_pos hlen]
  have hdk : decChars (bitsVal (body.take 32)) C = some K.data := by
    rw [hkn, hCdef]
    exact decChars_encChars _
  have hdp : decChars (bitsVal ((body.drop 32).take 32)) E = some (joinFields k) := by
    rw [hpn, hEdef]
    exact decChars_encChars _
  rw [hdk, hdp]
  have e0 : String.mk K.data = K := rfl
  have e1 : String.mk k.budget_code.data = k.budget_code := rfl
  have e2 : String.mk k.admin_number.data = k.admin_number := rfl
  have e3 : String.mk k.pas_number.data = k.pas_number := rfl
  by_cases hq : Kq = K
  · simp [hq, e0, e1, e2, e3, splitOnSep_joinFields k h1 h2 h3]
  · have hne : ¬ (String.mk K.data = Kq) := fun hh => hq (hh.symm.trans e0)
    simp [hq, hne]

theorem decrypt_sound {t : List Bool} {K : String} {k : CompositeKey}
    (h : decrypt t K = some k) :
    t = encrypt k K ∧ K.data.length < 2 ^ 32 ∧ (joinFields k).length < 2 ^ 32 := by
  cases t with
  | nil =>
    rw [decrypt] at h
    exact Option.noConfusion h
  | cons p body =>
    rw [decrypt] at h
    split at h
    case isFalse => exact Option.noConfusion h
    case isTrue hp =>
    split at h
    case isFalse => exact Option.noConfusion h
    case isTrue hlen =>
    split at h
    case h_2 => exact Option.noConfusion h
    case h_1 kcs pcs hkc hpc =>
    split at h
    case isFalse => exact Option.noConfusion h
    case isTrue hKeq =>
    split at h
    case h_2 => exact Option.noConfusion h
    case h_1 a b c hsplit =>
    injection h with h
    subst h
    have hko := decChars_sound hkc
    have hpo := decChars_sound hpc
    have hKdata : K.data = kcs := by rw [← hKeq]
    have hbl : 64 ≤ body.length := by omega
    have ht32 : (body.take 32).length = 32 := by
      rw [List.length_take]
      omega
    have htd32 : ((body.drop 32).take 32).length = 32 := by
      rw [List.length_take, List.length_drop]
      omega
    have hkn_lt : bitsVal (body.take 32) < 2 ^ 32 := by
      have hx := bitsVal_lt (body.take 32)
      rwa [ht32] at hx
    have hpn_lt : bitsVal ((body.drop 32).take 32) < 2 ^ 32 := by
      have hx := bitsVal_lt ((body.drop 32).take 32)
      rwa [htd32] at hx
    have hA' : natBits 32 (bitsVal (body.take 32)) = body.take 32 := by
      have hx := natBits_bitsVal (body.take 32)
      rwa [ht32] at hx
    have hB' : natBits 32 (bitsVal ((body.drop 32).take 32)) = (body.drop 32).take 32 := by
      have hx := natBits_bitsVal ((body.drop 32).take 32)
      rwa [htd32] at hx
    have hnoSep := splitOnSep_parts_sepFree pcs
    rw [hsplit] at hnoSep
    have hj : joinFields ⟨String.mk a, String.mk b, String.mk c⟩ = pcs := by
      rw [joinFields_eq]
      rw [show a ++ sep :: (b ++ sep :: c) = joinSep [a, b, c] from rfl]
      rw [← hsplit, joinSep_splitOnSep]
    have hrec : natBits 32 (bitsVal (body.take 32)) ++
        (natBits 32 (bitsVal ((body.drop 32).take 32)) ++
          (encChars kcs ++ encChars pcs)) = body := by
      rw [hA', hB', hko.2.2, hpo.2.2]
      have s1 : (body.drop 64).take (32 * bitsVal (body.take 32)) ++
          body.drop (64 + 32 * bitsVal (body.take 32)) = body.drop 64 := by
        rw [← List.drop_drop]
        exact List.take_append_drop _ _
      have s2 : (body.drop 32).take 32 ++ body.drop 64 = body.drop 32 := by
        rw [show (64 : Nat) = 32 + 32 from rfl, ← List.drop_drop]
        exact List.take_append_drop _ _
      rw [s1, s2, List.take_append_drop]
    have htb : tokenBody ⟨String.mk a, String.mk b, String.mk c⟩ K = body := by
      rw [tokenBody, hj, hKdata, hko.1, hpo.1, hrec]
    refine ⟨?_, ?_, ?_⟩
    · rw [encrypt, htb, hp]
    · rw [hKdata, hko.1]
      exact hkn_lt
    · rw [hj, hpo.1]
      exact hpn_lt

theorem tokenBody_field2 (k : CompositeKey) (K : String) :
    ((tokenBody k K).drop 32).take 32 = natBits 32 (joinFields k).length := by
  rw [tokenBody, List.drop_left' (length_natBits _ _)]
  exact List.take_left' (length_natBits _ _)

theorem tokenBody_length (k : CompositeKey) (K : String) :
    (tokenBody k K).length = 64 + 32 * K.data.length + 32 * (joinFields k).length := by
  rw [tokenBody]
  simp only [List.length_append, length_natBits, length_encChars]
  omega

theorem decrypt_flipBit_eq_none (k : CompositeKey) (K : String) (i : Nat)
    (hi : i < (encrypt k K).length) :
    decrypt (flipBit (encrypt k K) i) K = none := by
  cases hd : decrypt (flipBit (encrypt k K) i) K with
  | none => rfl
  | some k2 =>
    exfalso
    obtain ⟨heq, -, -⟩ := decrypt_sound hd
    cases i with
    | zero =>
      rw [encrypt, flipBit_cons_zero, encrypt] at heq
      injection heq with h1 h2
      rw [← h2] at h1
      simp at h1
    | succ j =>
      rw [encrypt, flipBit_cons_succ, encrypt] at heq
      injection heq with h1 h2
      have hj : j < (tokenBody k K).length := by
        rw [encrypt] at hi
        simp only [List.length_cons] at hi
        omega
      have hpf := parity_flipBit (tokenBody k K) j hj
      rw [h2, ← h1] at hpf
      simp at hpf

theorem decrypt_append_eq_none (k : CompositeKey) (K : String) (ex : List Bool)
    (hex : ex ≠ []) (hpt : (joinFields k).length < 2 ^ 32) :
    decrypt (encrypt k K ++ ex) K = none := by
  cases hd : decrypt (encrypt k K ++ ex) K with
  | none => rfl
  | some k2 =>
    exfalso
    obtain ⟨heq, -, hpt2⟩ := decrypt_sound hd
    rw [encrypt, encrypt, List.cons_append] at heq
    injection heq with h1 h2
    have e1 : ((tokenBody k K ++ ex).drop 32).take 32 = natBits 32 (joinFields k).length := by
      rw [tokenBody, List.append_assoc, List.drop_left' (length_natBits _ _),
          List.append_assoc]
      exact List.take_left' (length_natBits _ _)
    have e2 : ((tokenBody k2 K).drop 32).take 32 = natBits 32 (joinFields k2).length :=
      tokenBody_field2 k2 K
    rw [h2, e2] at e1
    have hleq : (joinFields k2).length = (joinFields k).length :=
      natBits_inj hpt2 hpt e1
    have hlen2 := congrArg List.length h2
    rw [List.length_append, tokenBody_length, tokenBody_length, hleq] at hlen2
    have : ex.length = 0 := by omega
    exact hex (List.eq_nil_of_length_eq_zero this)

theorem decrypt_take_eq_none (k : CompositeKey) (K : String) (m : Nat)
    (hm : m < (encrypt k K).length) (hpt : (joinFields k).length < 2 ^ 32) :
    decrypt ((encrypt k K).take m) K = none := by
  cases m with
  | zero => rw [List.take_zero, decrypt]
  | succ j =>
    cases hd : decrypt ((encrypt k K).take (j + 1)) K with
    | none => rfl
    | some k2 =>
      exfalso
      obtain ⟨heq, -, hpt2⟩ := decrypt_sound hd
      rw [encrypt, List.take_succ_cons, encrypt] at heq
      injection heq with h1 h2
      have hjlt : j < (tokenBody k K).length := by
        rw [encrypt] at hm
        simp only [List.length_cons] at hm
        omega
      have hlen2 : (tokenBody k2 K).length = j := by
        rw [← h2, List.length_take]
        omega
      rw [tokenBody_length] at hlen2
      by_cases hj64 : 64 ≤ j
      · have e1 : ((tokenBody k2 K).drop 32).take 32 = natBits 32 (joinFields k).length := by
          rw [← h2, List.drop_take, List.take_take]
          have hmin : 32 ⊓ (j - 32) = 32 := by omega
          rw [hmin, tokenBody_field2]
        rw [tokenBody_field2] at e1
        have hleq : (joinFields k2).length = (joinFields k).length :=
          natBits_inj hpt2 hpt e1
        rw [tokenBody_length] at hjlt
        omega
      · omega

end crypto

namespace FocusServer

theorem argGet_of_none {args : List (String × String)} {key : String}
    (h : argGetOpt args key = none) (dflt : String) : argGet args key dflt = dflt := by
  rw [argGetOpt] at h
  rw [argGet]
  cases hf : List.find? (fun p => p.1 == key) args with
  | none => rfl
  | some p =>
    rw [hf] at h
    exact Option.noConfusion h

/-- C7: `health` always answers the plain-text 200 `OK`, independent of
(and without touching) the connection; it cannot raise. -/
theorem health_always_ok {D : Type} :
    (health (D := D)).status = 200 ∧ (health (D := D)).body = .text "OK" ∧
      (health (D := D)).contentType = some "text/plain" :=
  ⟨rfl, rfl, rfl⟩

/-- C5: `status_data` answers 200 exactly when `is_alive()` returns
`True`; on a `False` answer or a raised exception it answers the
uniform plain-text 500 and resets the connection exactly once. -/
theorem status_data_iff {D : Type} (env : Env D) :
    ((status_data env).1.status = 200 ↔ env.is_alive_result = .ok true)
  ∧ (env.is_alive_result = .ok true →
      status_data env =
        (⟨200, .text "Connectivity to Focus OK", some "text/plain", none⟩, [.is_alive]))
  ∧ (env.is_alive_result ≠ .ok true →
      (status_data env).1 = no_connection_response ∧ resets (status_data env).2 = 1) := by
  cases h : env.is_alive_result with
  | ok b =>
    cases b
    · refine ⟨?_, ?_, ?_⟩ <;> simp [status_data, h, no_connection_response, resets]
    · refine ⟨?_, ?_, ?_⟩ <;> simp [status_data, h]
  | exn e =>
    refine ⟨?_, ?_, ?_⟩ <;> simp [status_data, h, no_connection_response, resets]

def envC5 : Env Nat :=
  { bsn := .ok "900222086", is_alive_result := .exn "connection refused",
    aanvragen_result := .ok 0, jaaropgaven_result := .ok 0,
    uitkeringsspecificaties_result := .ok 0, eAanvragenTozo_result := .ok 0,
    document_result := .ok ⟨[], "f.pdf", "application/pdf"⟩, args := [],
    script_root := "/api/focus" }

/-- Witness for C5: with a raising probe, `status_data` answers the
uniform 500 and resets once. -/
theorem status_data_iff_witness :
    (status_data envC5).1 = no_connection_response ∧ resets (status_data envC5).2 = 1 :=
  (status_data_iff envC5).2.2 (by decide)

/-- C4: when BSN extraction raises, every authenticated handler
answers the plain-text 422 carrying the detail message (never a 500)
and performs no connection call at all. -/
theorem bsn_failure_yields_422 {D : Type} (env : Env D) (e : String)
    (h : env.bsn = .exn e) :
    aanvragen env = (.ok (parameter_error_response e), [])
  ∧ combined env = (parameter_error_response e, [])
  ∧ document env = (parameter_error_response e, [])
  ∧ (parameter_error_response (D := D) e).status = 422
  ∧ (parameter_error_response (D := D) e).body = .text ("Parameter error: " ++ e)
  ∧ (parameter_error_response (D := D) e).contentType = some "text/plain" := by
  refine ⟨?_, ?_, ?_, rfl, rfl, rfl⟩ <;> simp [aanvragen, combined, document, h]

def envC4 : Env Nat :=
  { bsn := .exn "Missing SAML token", is_alive_result := .ok true,
    aanvragen_result := .ok 7, jaaropgaven_result := .ok 7,
    uitkeringsspecificaties_result := .ok 7, eAanvragenTozo_result := .ok 7,
    document_result := .ok ⟨[1, 2], "f.pdf", "application/pdf"⟩, args := [],
    script_root := "/api/focus" }

/-- Witness for C4 at a concrete failing extraction. -/
theorem bsn_failure_yields_422_witness :
    aanvragen envC4 = (.ok (parameter_error_response "Missing SAML token"), [])
  ∧ combined envC4 = (parameter_error_response "Missing SAML token", [])
  ∧ document envC4 = (parameter_error_response "Missing SAML token", [])
  ∧ (parameter_error_response (D := Nat) "Missing SAML token").status = 422
  ∧ (parameter_error_response (D := Nat) "Missing SAML token").body =
      .text ("Parameter error: " ++ "Missing SAML token")
  ∧ (parameter_error_response (D := Nat) "Missing SAML token").contentType =
      some "text/plain" :=
  bsn_failure_yields_422 envC4 "Missing SAML token" rfl


/-- C9: `reset()` is called only on the connectivity-failure path: the
422 parameter-error paths perform no connection call at all,
`aanvragen` never resets, and whenever a trace contains a reset the
handler's response is the uniform connectivity-failure 500. -/
theorem reset_only_connectivity {D : Type} (env : Env D) :
    resets (aanvragen env).2 = 0
  ∧ (ConnCall.reset ∈ (status_data env).2 → (status_data env).1 = no_connection_response)
  ∧ (ConnCall.reset ∈ (combined env).2 → (combined env).1 = no_connection_response)
  ∧ (ConnCall.reset ∈ (document env).2 → (document env).1 = no_connection_response)
  ∧ (∀ e, env.bsn = .exn e →
      (aanvragen env).2 = [] ∧ (combined env).2 = [] ∧ (document env).2 = []) := by
  refine ⟨?_, ?_, ?_, ?_, ?_⟩
  · cases hb : env.bsn with
    | exn e => simp [aanvragen, hb, resets]
    | ok b => cases ha : env.aanvragen_result <;> simp [aanvragen, hb, ha, resets]
  · cases hi : env.is_alive_result with
    | ok b => cases b <;> simp [status_data, hi]
    | exn e => simp [status_data, hi]
  · cases hb : env.bsn with
    | exn e => simp [combined, hb]
    | ok b =>
      cases hj : env.jaaropgaven_result <;>
        cases hu : env.uitkeringsspecificaties_result <;>
          cases ht : env.eAanvragenTozo_result <;>
            simp [combined, hb, hj, hu, ht]
  · cases hb : env.bsn with
    | exn e => simp [document, hb]
    | ok b => cases hd : env.document_result <;> simp [document, hb, hd]
  · intro e he
    refine ⟨?_, ?_, ?_⟩ <;> simp [aanvragen, combined, document, he]

def envC9 : Env Nat :=
  { bsn := .exn "invalid signature", is_alive_result := .ok false,
    aanvragen_result := .exn "fault", jaaropgaven_result := .ok 3,
    uitkeringsspecificaties_result := .ok 3, eAanvragenTozo_result := .ok 3,
    document_result := .ok ⟨[9], "d.pdf", "application/pdf"⟩, args := [],
    script_root := "/api/focus" }

/-- Witness for C9: on a failed extraction all three authenticated
handlers leave the connection untouched. -/
theorem reset_only_connectivity_witness :
    (aanvragen envC9).2 = [] ∧ (combined envC9).2 = [] ∧ (document envC9).2 = [] :=
  (reset_only_connectivity envC9).2.2.2.2 "invalid signature" rfl

/-- C10: a missing `id` query parameter is not a parameter error: `id`
defaults to `None` and is forwarded unchanged to the remote document
call; the handler's only 422 outcome is a failed BSN extraction. -/
theorem document_missing_id {D : Type} (env : Env D)
    (h : argGetOpt env.args "id" = none) :
    (∀ b, env.bsn = .ok b →
        ∃ bulk dms, (document env).2.head? = some (ConnCall.document b none bulk dms))
  ∧ ((document env).1.status = 422 ↔ ∃ e, env.bsn = .exn e) := by
  constructor
  · intro b hb
    refine ⟨pyLower (argGet env.args "isBulk" "false") == "true",
            pyLower (argGet env.args "isDms" "false") == "true", ?_⟩
    cases hd : env.document_result <;> simp [document, hb, hd, h]
  · cases hb : env.bsn with
    | exn e => simp [document, hb, parameter_error_response]
    | ok b =>
      cases hd : env.document_result <;>
        simp [document, hb, hd, no_connection_response]

def envC10 : Env Nat :=
  { bsn := .ok "900222086", is_alive_result := .ok true,
    aanvragen_result := .ok 1, jaaropgaven_result := .ok 1,
    uitkeringsspecificaties_result := .ok 1, eAanvragenTozo_result := .ok 1,
    document_result := .ok ⟨[4, 5], "spec.pdf", "application/pdf"⟩,
    args := [("isBulk", "true")], script_root := "/api/focus" }

/-- Witness for C10: with no `id` argument and a valid BSN, the remote
call receives `None` for `id` and the response is not a 422. -/
theorem document_missing_id_witness :
    (∃ bulk dms, (document envC10).2.head? =
        some (ConnCall.document "900222086" none bulk dms))
  ∧ ¬ (document envC10).1.status = 422 := by
  have h := document_missing_id envC10 (by decide)
  refine ⟨h.1 "900222086" rfl, ?_⟩
  intro h422
  obtain ⟨e, he⟩ := h.2.mp h422
  exact PyResult.noConfusion he

/-- C6: on a successful fetch, `document` answers 200 with exactly the
raw document bytes, the attachment `Content-Disposition` built from
the declared file name, and the declared MIME type; the query
parameters are read as `id` (optional), `isBulk` and `isDms`
(defaulting to false when absent). -/
theorem document_success_contract {D : Type} (env : Env D) (b : String) (doc : Document)
    (hb : env.bsn = .ok b) (hd : env.document_result = .ok doc) :
    (document env).1 = ⟨200, .bytes doc.contents, some doc.mime_type,
        some ("attachment; filename=\"" ++ doc.fileName ++ "\"")⟩
  ∧ (document env).2 = [ConnCall.document b (argGetOpt env.args "id")
        (pyLower (argGet env.args "isBulk" "false") == "true")
        (pyLower (argGet env.args "isDms" "false") == "true")]
  ∧ (argGetOpt env.args "isBulk" = none →
      (pyLower (argGet env.args "isBulk" "false") == "true") = false)
  ∧ (argGetOpt env.args "isDms" = none →
      (pyLower (argGet env.args "isDms" "false") == "true") = false) := by
  refine ⟨?_, ?_, ?_, ?_⟩
  · simp [document, hb, hd]
  · simp [document, hb, hd]
  · intro hn
    rw [argGet_of_none hn]
    rfl
  · intro hn
    rw [argGet_of_none hn]
    rfl

def envC6 : Env Nat :=
  { bsn := .ok "900222086", is_alive_result := .ok true,
    aanvragen_result := .ok 1, jaaropgaven_result := .ok 1,
    uitkeringsspecificaties_result := .ok 1, eAanvragenTozo_result := .ok 1,
    document_result := .ok ⟨[37, 80, 68, 70], "jaaropgave.pdf", "application/pdf"⟩,
    args := [("id", "172013")], script_root := "/api/focus" }

/-- Witness for C6 at a concrete successful fetch. -/
theorem document_success_contract_witness :
    (document envC6).1 = ⟨200, .bytes [37, 80, 68, 70], some "application/pdf",
        some ("attachment; filename=\"" ++ "jaaropgave.pdf" ++ "\"")⟩
  ∧ (pyLower (argGet envC6.args "isBulk" "false") == "true") = false := by
  have h := document_success_contract envC6 "900222086"
    ⟨[37, 80, 68, 70], "jaaropgave.pdf", "application/pdf"⟩ rfl rfl
  exact ⟨h.1, h.2.2.1 (by decide)⟩

/-- C8: the boolean query parameters of `document` are computed
totally: the value forwarded for `isBulk` (resp. `isDms`) is true
exactly when the query value lower-cases to `"true"`, and an absent
parameter yields false. -/
theorem document_bool_params {D : Type} (env : Env D) (b : String)
    (hb : env.bsn = .ok b) :
    ∃ bulk dms,
      (document env).2.head? =
          some (ConnCall.document b (argGetOpt env.args "id") bulk dms)
      ∧ (bulk = true ↔ pyLower (argGet env.args "isBulk" "false") = "true")
      ∧ (dms = true ↔ pyLower (argGet env.args "isDms" "false") = "true")
      ∧ (argGetOpt env.args "isBulk" = none → bulk = false)
      ∧ (argGetOpt env.args "isDms" = none → dms = false) := by
  refine ⟨pyLower (argGet env.args "isBulk" "false") == "true",
          pyLower (argGet env.args "isDms" "false") == "true", ?_, ?_, ?_, ?_, ?_⟩
  · cases hd : env.document_result <;> simp [document, hb, hd]
  · simp
  · simp
  · intro hn
    rw [argGet_of_none hn]
    rfl
  · intro hn
    rw [argGet_of_none hn]
    rfl

def envC8 : Env Nat :=
  { bsn := .ok "900222086", is_alive_result := .ok true,
    aanvragen_result := .ok 1, jaaropgaven_result := .ok 1,
    uitkeringsspecificaties_result := .ok 1, eAanvragenTozo_result := .ok 1,
    document_result := .ok ⟨[1], "d.pdf", "application/pdf"⟩,
    args := [("id", "9"), ("isBulk", "TRUE"), ("isDms", "yes")],
    script_root := "/api/focus" }

/-- Witness for C8: `isBulk=TRUE` parses to true, `isDms=yes` to
false. -/
theorem document_bool_params_witness :
    (document envC8).2.head? =
        some (ConnCall.document "900222086" (some "9") true false) := by
  obtain ⟨bulk, dms, hhead, hbulk, hdms, -, -⟩ :=
    document_bool_params envC8 "900222086" rfl
  have h1 : bulk = true := hbulk.mpr (by decide)
  have h2 : dms = false := by
    cases hb2 : dms
    · rfl
    · exact absurd (hdms.mp hb2) (by decide)
  rw [h1, h2] at hhead
  rw [hhead]
  have : argGetOpt envC8.args "id" = some "9" := by decide
  rw [this]


def envC1 : Env Nat :=
  { bsn := .ok "900222086", is_alive_result := .ok true,
    aanvragen_result := .exn "Focus SOAP fault", jaaropgaven_result := .exn "Focus SOAP fault",
    uitkeringsspecificaties_result := .exn "Focus SOAP fault",
    eAanvragenTozo_result := .exn "Focus SOAP fault",
    document_result := .exn "Focus SOAP fault", args := [], script_root := "/api/focus" }

/-- C1 counterexample: in `aanvragen` the remote-call exception is not
caught — the handler neither resets the connection nor returns the
uniform connectivity-failure 500; the raw exception escapes. -/
theorem aanvragen_exception_escapes :
    (aanvragen envC1).1 = .exn "Focus SOAP fault"
  ∧ resets (aanvragen envC1).2 = 0
  ∧ (aanvragen envC1).1 ≠ .ok (no_connection_response (D := Nat)) := by
  refine ⟨rfl, rfl, ?_⟩
  decide

/-- C1 (amended): `combined` and `document` catch every remote-call
exception, reset exactly once and answer the uniform plain-text 500;
`aanvragen` does not — its remote-call exception propagates out of the
handler uncaught, with no reset and no 500 response. -/
theorem remote_failure_handling {D : Type} (env : Env D) (b : String)
    (hb : env.bsn = .ok b) :
    (∀ e, env.aanvragen_result = .exn e →
        aanvragen env = (.exn e, [.aanvragen b env.script_root]))
  ∧ ((env.jaaropgaven_result.isExn = true ∨
        env.uitkeringsspecificaties_result.isExn = true ∨
        env.eAanvragenTozo_result.isExn = true) →
      (combined env).1 = no_connection_response ∧ resets (combined env).2 = 1)
  ∧ (env.document_result.isExn = true →
      (document env).1 = no_connection_response ∧ resets (document env).2 = 1) := by
  refine ⟨?_, ?_, ?_⟩
  · intro e he
    simp [aanvragen, hb, he]
  · intro hfail
    cases hj : env.jaaropgaven_result with
    | exn e => simp [combined, hb, hj, resets]
    | ok j =>
      cases hu : env.uitkeringsspecificaties_result with
      | exn e => simp [combined, hb, hj, hu, resets]
      | ok u =>
        cases ht : env.eAanvragenTozo_result with
        | exn e => simp [combined, hb, hj, hu, ht, resets]
        | ok t =>
          rw [hj, hu, ht] at hfail
          simp [PyResult.isExn] at hfail
  · intro hfail
    cases hd : env.document_result with
    | exn e => simp [document, hb, hd, resets]
    | ok doc =>
      rw [hd] at hfail
      simp [PyResult.isExn] at hfail

/-- Witness for the amended C1 at a concrete environment where every
remote call raises. -/
theorem remote_failure_handling_witness :
    aanvragen envC1 = (.exn "Focus SOAP fault", [.aanvragen "900222086" "/api/focus"])
  ∧ ((combined envC1).1 = no_connection_response ∧ resets (combined envC1).2 = 1)
  ∧ ((document envC1).1 = no_connection_response ∧ resets (document envC1).2 = 1) := by
  have h := remote_failure_handling envC1 "900222086" rfl
  exact ⟨h.1 "Focus SOAP fault" rfl, h.2.1 (Or.inl rfl), h.2.2 rfl⟩

end FocusServer

namespace crypto

/-- C2: decoding an encoded composite key under the same key material
returns exactly the original tuple, provided no field contains the
reserved separator (empty fields included). -/
theorem decode_encode_roundtrip (k : CompositeKey) (K : String)
    (h1 : sep ∉ k.budget_code.data) (h2 : sep ∉ k.admin_number.data)
    (h3 : sep ∉ k.pas_number.data)
    (hK : K.data.length < 2 ^ 32) (hpt : (joinFields k).length < 2 ^ 32) :
    decrypt (encrypt k K) K = some k := by
  rw [decrypt_encrypt_general k K K h1 h2 h3 hK hpt, if_pos rfl]

def keyW : CompositeKey := ⟨"aaa", "", "66"⟩

set_option maxRecDepth 4000 in
/-- Witness for C2 at a concrete tuple with an empty field. -/
theorem decode_encode_roundtrip_witness :
    decrypt (encrypt keyW "k") "k" = some keyW :=
  decode_encode_roundtrip keyW "k" (by decide) (by decide) (by decide)
    (by decide) (by decide)

/-- C3: decoding fails (the `InvalidTokenError` outcome, `none`) under
a different key, after any single bit flip, after appending anything,
and after truncation; moreover a successful decode can only come from
the untampered encoding of the returned tuple, so decoding never
silently yields a wrong tuple. -/
theorem decode_rejects_tampering (k : CompositeKey) (K1 K2 : String)
    (h1 : sep ∉ k.budget_code.data) (h2 : sep ∉ k.admin_number.data)
    (h3 : sep ∉ k.pas_number.data)
    (hK : K1.data.length < 2 ^ 32) (hpt : (joinFields k).length < 2 ^ 32) :
    (K2 ≠ K1 → decrypt (encrypt k K1) K2 = none)
  ∧ (∀ i, i < (encrypt k K1).length → decrypt (flipBit (encrypt k K1) i) K1 = none)
  ∧ (∀ ex, ex ≠ [] → decrypt (encrypt k K1 ++ ex) K1 = none)
  ∧ (∀ m, m < (encrypt k K1).length → decrypt ((encrypt k K1).take m) K1 = none)
  ∧ (∀ t k2, decrypt t K1 = some k2 → t = encrypt k2 K1) := by
  refine ⟨?_, ?_, ?_, ?_, ?_⟩
  · intro hne
    rw [decrypt_encrypt_general k K1 K2 h1 h2 h3 hK hpt, if_neg hne]
  · intro i hi
    exact decrypt_flipBit_eq_none k K1 i hi
  · intro ex hex
    exact decrypt_append_eq_none k K1 ex hex hpt
  · intro m hm
    exact decrypt_take_eq_none k K1 m hm hpt
  · intro t k2 hd
    exact (decrypt_sound hd).1

set_option maxRecDepth 6000 in
/-- Witness for C3: wrong key, a concrete bit flip, a concrete
extension and a concrete truncation are all rejected. -/
theorem decode_rejects_tampering_witness :
    decrypt (encrypt keyW "k") "K" = none
  ∧ decrypt (flipBit (encrypt keyW "k") 0) "k" = none
  ∧ decrypt (encrypt keyW "k" ++ [true]) "k" = none
  ∧ decrypt ((encrypt keyW "k").take 10) "k" = none := by
  have h := decode_rejects_tampering keyW "k" "K" (by decide) (by decide)
    (by decide) (by decide) (by decide)
  exact ⟨h.1 (by decide), h.2.1 0 (by decide), h.2.2.1 [true] (by decide),
    h.2.2.2.1 10 (by decide)⟩

end crypto
